import Mathlib

/-
Verification development for s3backer, a block device backed by an object
store.  The repository's visible source is the process entry point and the
NBD trampoline (src/main.c); the four-layer storage pipeline (block cache,
zero cache, eventual-consistency protection, HTTP I/O) is described by the
specification only, so those parts are modelled from the spec, while the
trampoline is embedded directly from src/main.c.

Conventions: pid_t is modelled as Int, C strings as List Char, the
child_pids array as the list of its first num_child_pids entries, and byte
buffers as List Nat with values below 256.
-/

set_option maxHeartbeats 1000000

namespace S3B

/-! Section 1: child supervision state of the trampoline (src/main.c). -/

/-- Model of record_child_exited (src/main.c lines 453-466): scan the recorded
child list for the first entry equal to pid; when found, the memmove shifts the
later entries down one slot and num_child_pids is decremented, which on the
live prefix of the array is exactly removal of that entry. -/
def record_child_exited : List Int → Int → List Int
  | [], _ => []
  | x :: rest, pid => if x = pid then rest else x :: record_child_exited rest pid

theorem record_child_exited_length_le (l : List Int) (pid : Int) :
    (record_child_exited l pid).length ≤ l.length := by
  induction l with
  | nil => simp [record_child_exited]
  | cons x rest ih =>
    by_cases hx : x = pid
    · simp only [record_child_exited, if_pos hx, List.length_cons]
      omega
    · simp only [record_child_exited, if_neg hx, List.length_cons]
      omega

/-- C8: record_child_exited removes exactly the first occurrence of pid,
shifting the later entries down in order and reducing the count by one; when
pid is absent the recorded list is unchanged. -/
theorem record_child_exited_spec (l : List Int) (pid : Int) :
    (∀ front back, l = front ++ pid :: back → pid ∉ front →
        record_child_exited l pid = front ++ back) ∧
    (pid ∈ l → (record_child_exited l pid).length + 1 = l.length) ∧
    (pid ∉ l → record_child_exited l pid = l) := by
  refine ⟨?_, ?_, ?_⟩
  · intro front back hsplit hnot
    induction front generalizing l with
    | nil =>
      subst hsplit
      simp [record_child_exited]
    | cons x rest ih =>
      subst hsplit
      have hx : x ≠ pid := by
        intro h
        exact hnot (by simp [h])
      have hrest : pid ∉ rest := fun h => hnot (by simp [h])
      simp only [List.cons_append, record_child_exited, if_neg hx, List.append_eq]
      rw [ih (rest ++ pid :: back) rfl hrest]
  · intro hmem
    induction l with
    | nil => cases hmem
    | cons x rest ih =>
      by_cases hx : x = pid
      · simp [record_child_exited, hx]
      · have hrest : pid ∈ rest := by
          rcases List.mem_cons.mp hmem with h | h
          · exact absurd h.symm hx
          · exact h
        simp only [record_child_exited, if_neg hx, List.length_cons]
        rw [← ih hrest]
  · intro hnot
    induction l with
    | nil => rfl
    | cons x rest ih =>
      have hx : x ≠ pid := fun h => hnot (by simp [h])
      have hrest : pid ∉ rest := fun h => hnot (by simp [h])
      simp [record_child_exited, hx, ih hrest]

/-- Witness for C8 at a concrete child list. -/
theorem record_child_exited_spec_witness :
    record_child_exited [3, 5, 7] 5 = [3] ++ [7] ∧
    (record_child_exited [3, 5, 7] 5).length + 1 = ([3, 5, 7] : List Int).length ∧
    record_child_exited [3, 5, 7] 9 = [3, 5, 7] :=
  ⟨(record_child_exited_spec [3, 5, 7] 5).1 [3] [7] rfl (by decide),
   (record_child_exited_spec [3, 5, 7] 5).2.1 (by decide),
   (record_child_exited_spec [3, 5, 7] 9).2.2 (by decide)⟩

/-- Outcome of one underlying wait(2) call: some child exited, or the call was
interrupted by a signal (EINTR). -/
inductive WaitOutcome where
  | exited (pid : Int)
  | interrupted
deriving DecidableEq

/-- Model of wait_for_child_to_exit (src/main.c lines 468-508).  With no
recorded children it returns 0 immediately unless sleep_if_none is set, in
which case the usleep loop can only be left through a signal, yielding -1.
With children recorded, the wait either gets interrupted by a signal (-1) or
reaps a child, which is then removed from the recorded list. -/
def wait_for_child_to_exit (children : List Int) (sleep_if_none : Bool)
    (out : WaitOutcome) : Int × List Int :=
  if children.isEmpty then
    if !sleep_if_none then (0, children)
    else (-1, children)
  else
    match out with
    | .interrupted => (-1, children)
    | .exited p => (p, record_child_exited children p)

/-- C10: wait_for_child_to_exit returns 0 exactly when no children are
recorded and sleep_if_none is false; it returns -1 exactly when a signal
interrupts the sleep (no children, sleep_if_none set) or the wait; otherwise
it returns the reaped child's pid after removing it from the recorded list. -/
theorem wait_for_child_spec (children : List Int) (sleep_if_none : Bool)
    (out : WaitOutcome) (hpos : ∀ p, out = .exited p → 0 < p) :
    ((wait_for_child_to_exit children sleep_if_none out).1 = 0 ↔
        children = [] ∧ sleep_if_none = false) ∧
    ((wait_for_child_to_exit children sleep_if_none out).1 = -1 ↔
        (children = [] ∧ sleep_if_none = true) ∨
        (children ≠ [] ∧ out = .interrupted)) ∧
    (∀ p, children ≠ [] → out = .exited p →
        wait_for_child_to_exit children sleep_if_none out =
          (p, record_child_exited children p)) := by
  refine ⟨?_, ?_, ?_⟩
  · cases children with
    | nil => cases sleep_if_none <;> simp [wait_for_child_to_exit]
    | cons x rest =>
      cases out with
      | interrupted => simp [wait_for_child_to_exit]
      | exited p =>
        have hp : 0 < p := hpos p rfl
        simp [wait_for_child_to_exit]
        omega
  · cases children with
    | nil => cases sleep_if_none <;> simp [wait_for_child_to_exit]
    | cons x rest =>
      cases out with
      | interrupted => simp [wait_for_child_to_exit]
      | exited p =>
        have hp : 0 < p := hpos p rfl
        simp [wait_for_child_to_exit]
        omega
  · intro p hne hout
    subst hout
    cases children with
    | nil => exact absurd rfl hne
    | cons x rest => simp [wait_for_child_to_exit]

/-- Witness for C10 at a concrete state. -/
theorem wait_for_child_spec_witness :
    wait_for_child_to_exit [5] false (WaitOutcome.exited 5) =
      (5, record_child_exited [5] 5) :=
  (wait_for_child_spec [5] false (WaitOutcome.exited 5)
      (by intro p hp; cases hp; decide)).2.2 5 (by decide) rfl

/-! Section 2: command-line scanning of main and trampoline_to_nbd
(src/main.c).  C strings are modelled as lists of characters. -/

/-- A C string. -/
abbrev CStr := List Char

/-- The characters of the flag "--nbd". -/
def nbdFlag : CStr := ['-', '-', 'n', 'b', 'd']

/-- The characters of "--nbd-flag". -/
def nbdFlagFlag : CStr := ['-', '-', 'n', 'b', 'd', '-', 'f', 'l', 'a', 'g']

/-- The characters of "--nbd-param". -/
def nbdParamFlag : CStr := ['-', '-', 'n', 'b', 'd', '-', 'p', 'a', 'r', 'a', 'm']

/-- The characters of the bare "--" terminator. -/
def dashDash : CStr := ['-', '-']

/-- The C test *param == the dash character: the string begins with a dash. -/
def startsWithDash : CStr → Bool
  | [] => false
  | c :: _ => c == '-'

/-- strncmp(s, pat, |pat|) == 0: pat is a leading run of s. -/
def cstrPre : CStr → CStr → Bool
  | [], _ => true
  | _ :: _, [] => false
  | p :: ps, c :: cs => p == c && cstrPre ps cs

/-- Negation of the break test of the flag-scanning loops in src/main.c
(lines 85-93 and 181-190): the loop keeps scanning while the argument begins
with a dash and is not the bare double dash. -/
def scanCont (a : CStr) : Bool := startsWithDash a && a != dashDash

/-- Model of the "--nbd" scan at the top of main (src/main.c lines 84-93):
arguments are scanned in order until the break test fires; the nbd flag is set
when "--nbd" is met first. -/
def nbd_flag_scan : List CStr → Bool
  | [] => false
  | a :: rest =>
    if scanCont a = false then false
    else if a = nbdFlag then true
    else nbd_flag_scan rest

/-- Model of the flag-extraction loop of trampoline_to_nbd (src/main.c lines
180-222), returning the remaining positional arguments after the loop, or
none when the function returns the usage code 2 on a malformed "--nbd..."
flag.  The argv squish plus index rollback of the C loop amounts to plain
traversal of the argument list. -/
def extract_nbd_flags : List CStr → Option (List CStr)
  | [] => some []
  | a :: rest =>
    if startsWithDash a = false then some (a :: rest)
    else if a = dashDash then some rest
    else if cstrPre nbdFlag a = false then extract_nbd_flags rest
    else if a = nbdFlag then extract_nbd_flags rest
    else if '=' ∈ a then
      if a.takeWhile (fun c => c != '=') = nbdFlagFlag then extract_nbd_flags rest
      else if a.takeWhile (fun c => c != '=') = nbdParamFlag then extract_nbd_flags rest
      else none
    else none

/-- trampoline_to_nbd returns the usage code 2 either from inside the
extraction loop or when the remaining positional count differs from two
(src/main.c lines 197-221). -/
def trampoline_usage (args : List CStr) : Bool :=
  match extract_nbd_flags args with
  | none => true
  | some rem => rem.length != 2

/-- A well-formed member of the "--nbd" flag family: the bare flag itself, or
a "--nbd-flag=value" or "--nbd-param=value" form. -/
def good_nbd_flag (a : CStr) : Prop :=
  a = nbdFlag ∨ (∃ v, a = nbdFlagFlag ++ '=' :: v) ∨ (∃ v, a = nbdParamFlag ++ '=' :: v)

/-- An argument on which the extraction loop keeps scanning without failing:
it begins with a dash, is not the bare double dash, and when it is in the
"--nbd" family it is well-formed. -/
def loop_continues (a : CStr) : Prop :=
  scanCont a = true ∧ (cstrPre nbdFlag a = true → good_nbd_flag a)

theorem cstrPre_iff (p s : CStr) : cstrPre p s = true ↔ ∃ t, s = p ++ t := by
  induction p generalizing s with
  | nil => simp [cstrPre]
  | cons c ps ih =>
    cases s with
    | nil =>
      simp only [cstrPre, List.cons_append]
      constructor
      · intro h
        cases h
      · rintro ⟨t, ht⟩
        cases ht
    | cons d cs =>
      simp only [cstrPre, Bool.and_eq_true, beq_iff_eq, ih, List.cons_append]
      constructor
      · rintro ⟨rfl, t, rfl⟩
        exact ⟨t, rfl⟩
      · rintro ⟨t, ht⟩
        injection ht with h1 h2
        exact ⟨h1.symm, t, h2⟩

theorem split_at_eq_char (a : CStr) (hc : '=' ∈ a) :
    ∃ v, a = a.takeWhile (fun c => c != '=') ++ '=' :: v := by
  induction a with
  | nil => cases hc
  | cons c cs ih =>
    by_cases hce : c = '='
    · subst hce
      exact ⟨cs, by simp⟩
    · have hm : '=' ∈ cs := by
        rcases List.mem_cons.mp hc with h | h
        · exact absurd h.symm hce
        · exact h
      obtain ⟨v, hv⟩ := ih hm
      refine ⟨v, ?_⟩
      have hpc : (c != '=') = true := by simp [hce]
      simp only [List.takeWhile_cons, hpc, if_true, List.cons_append, List.cons.injEq,
        true_and]
      exact hv

theorem extract_cons_other (b : CStr) (rest : List CStr)
    (hd : startsWithDash b = true) (hdd : b ≠ dashDash)
    (hpre : cstrPre nbdFlag b = false) :
    extract_nbd_flags (b :: rest) = extract_nbd_flags rest := by
  simp [extract_nbd_flags, hd, hdd, hpre]

theorem extract_cons_nbd (rest : List CStr) :
    extract_nbd_flags (nbdFlag :: rest) = extract_nbd_flags rest := rfl

theorem extract_cons_flagform (v : CStr) (rest : List CStr) :
    extract_nbd_flags ((nbdFlagFlag ++ '=' :: v) :: rest) = extract_nbd_flags rest := rfl

theorem extract_cons_paramform (v : CStr) (rest : List CStr) :
    extract_nbd_flags ((nbdParamFlag ++ '=' :: v) :: rest) = extract_nbd_flags rest := rfl

theorem extract_cons_bad (a : CStr) (rest : List CStr)
    (hpre : cstrPre nbdFlag a = true) (hbad : ¬ good_nbd_flag a) :
    extract_nbd_flags (a :: rest) = none := by
  obtain ⟨t, rfl⟩ := (cstrPre_iff nbdFlag a).mp hpre
  have hd : startsWithDash (nbdFlag ++ t) = true := rfl
  have hdd : nbdFlag ++ t ≠ dashDash := by simp [nbdFlag, dashDash]
  have hne : nbdFlag ++ t ≠ nbdFlag := by
    intro h
    exact hbad (Or.inl h)
  by_cases hmem : '=' ∈ nbdFlag ++ t
  case neg => simp [extract_nbd_flags, hd, hdd, hpre, hne, hmem]
  case pos =>
    have hflag : (nbdFlag ++ t).takeWhile (fun c => c != '=') ≠ nbdFlagFlag := by
      intro h
      obtain ⟨v, hv⟩ := split_at_eq_char _ hmem
      rw [h] at hv
      exact hbad (Or.inr (Or.inl ⟨v, hv⟩))
    have hparam : (nbdFlag ++ t).takeWhile (fun c => c != '=') ≠ nbdParamFlag := by
      intro h
      obtain ⟨v, hv⟩ := split_at_eq_char _ hmem
      rw [h] at hv
      exact hbad (Or.inr (Or.inr ⟨v, hv⟩))
    simp [extract_nbd_flags, hd, hdd, hpre, hne, hmem, hflag, hparam]

theorem usage_cons_of_extract_eq (b : CStr) (tail : List CStr)
    (h : extract_nbd_flags (b :: tail) = extract_nbd_flags tail) :
    trampoline_usage (b :: tail) = trampoline_usage tail := by
  unfold trampoline_usage
  rw [h]

/-- C9: main sets its nbd flag exactly when "--nbd" occurs among the leading
flag arguments (scanning from position 1 and stopping at the first argument
that does not begin with a dash or equals the bare double dash); and
trampoline_to_nbd returns the usage code 2 whenever a leading "--nbd..."
flag is neither "--nbd" itself nor a "--nbd-flag=value" or "--nbd-param=value"
form, or the remaining positional count is not exactly two. -/
theorem nbd_flag_parsing (args : List CStr) :
    (nbd_flag_scan args = true ↔ nbdFlag ∈ args.takeWhile scanCont) ∧
    (∀ front a rest, args = front ++ a :: rest →
        (∀ b ∈ front, loop_continues b) →
        cstrPre nbdFlag a = true → ¬ good_nbd_flag a →
        trampoline_usage args = true) ∧
    (∀ rem, extract_nbd_flags args = some rem → rem.length ≠ 2 →
        trampoline_usage args = true) := by
  refine ⟨?_, ?_, ?_⟩
  · induction args with
    | nil => simp [nbd_flag_scan]
    | cons a rest ih =>
      cases hsc : scanCont a with
      | false => simp [nbd_flag_scan, hsc, List.takeWhile_cons]
      | true =>
        by_cases ha : a = nbdFlag
        · subst ha
          simp [nbd_flag_scan, hsc, List.takeWhile_cons]
        · have ha' : nbdFlag ≠ a := fun h => ha h.symm
          simp [nbd_flag_scan, hsc, List.takeWhile_cons, ih, ha, ha']
  · intro front a rest hsplit hfront hpre hbad
    subst hsplit
    have hnone : extract_nbd_flags (front ++ a :: rest) = none := by
      induction front with
      | nil => exact extract_cons_bad a rest hpre hbad
      | cons b bs ih =>
        have hb := hfront b (by simp)
        have hbs : ∀ c ∈ bs, loop_continues c := fun c hc => hfront c (by simp [hc])
        have hbd : startsWithDash b = true := by
          have := hb.1
          simp only [scanCont, Bool.and_eq_true] at this
          exact this.1
        have hbdd : b ≠ dashDash := by
          have := hb.1
          simp only [scanCont, Bool.and_eq_true, bne_iff_ne] at this
          exact this.2
        rw [List.cons_append]
        cases hbpre : cstrPre nbdFlag b with
        | false => rw [extract_cons_other b _ hbd hbdd hbpre]; exact ih hbs
        | true =>
          rcases hb.2 hbpre with hgood | ⟨v, hgood⟩ | ⟨v, hgood⟩
          · subst hgood
            rw [extract_cons_nbd]
            exact ih hbs
          · subst hgood
            rw [extract_cons_flagform]
            exact ih hbs
          · subst hgood
            rw [extract_cons_paramform]
            exact ih hbs
    unfold trampoline_usage
    rw [hnone]
  · intro rem hext hne
    unfold trampoline_usage
    rw [hext]
    simpa using hne

/-- Witness for C9: the malformed leading flag "--nbdx" and an argument list
with zero positional parameters both force the usage code. -/
theorem nbd_flag_parsing_witness :
    trampoline_usage [['-', '-', 'n', 'b', 'd', 'x']] = true ∧
    trampoline_usage [dashDash] = true :=
  ⟨(nbd_flag_parsing [['-', '-', 'n', 'b', 'd', 'x']]).2.1 []
      ['-', '-', 'n', 'b', 'd', 'x'] [] rfl (by intro b hb; cases hb) (by decide)
      (by rintro (h | ⟨v, h⟩ | ⟨v, h⟩) <;>
        simp [nbdFlag, nbdFlagFlag, nbdParamFlag] at h),
   (nbd_flag_parsing [dashDash]).2.2 [] (by decide) (by decide)⟩

/-! Section 3: the main entry point (src/main.c lines 76-153). -/

/-- Outcomes of the calls main makes, abstracted as an environment: the
trampoline's return value, whether s3backer_get_config succeeds, the nbd,
erase and reset configuration flags, whether the erase and reset commands
succeed, whether s3backer_create_store and fuse_ops_create return non-NULL,
the foreground flag, and the return value of fuse_main. -/
structure MainEnv where
  args : List CStr
  trampolineRet : Nat
  getConfigOk : Bool
  cfgNbd : Bool
  cfgErase : Bool
  eraseOk : Bool
  cfgReset : Bool
  resetOk : Bool
  createStoreOk : Bool
  foreground : Bool
  fuseOpsOk : Bool
  fuseMainRet : Nat

/-- Observable outcome of main: its exit status, whether main itself emitted
an error-level message (err, errx or a LOG_ERR log call; the LOG_INFO startup
line does not count), and which teardown hooks it invoked. -/
structure MainResult where
  exitCode : Nat
  loggedError : Bool
  shutdownCalled : Bool
  destroyCalled : Bool
  fuseOpsDestroyCalled : Bool
  usageCalled : Bool
deriving DecidableEq

/-- Model of main (src/main.c lines 76-153), branch for branch: the "--nbd"
scan and trampoline, the config-file nbd rejection, the erase and reset
commands, store creation (err on NULL), fuse_ops_create (on NULL: shutdown,
destroy, silent return 1), and fuse_main (on nonzero: LOG_ERR message,
fuse_ops_destroy, return 1). -/
def main_run (e : MainEnv) : MainResult :=
  if nbd_flag_scan e.args then
    if e.trampolineRet = 2 then ⟨1, false, false, false, false, true⟩
    else ⟨e.trampolineRet, false, false, false, false, false⟩
  else if e.getConfigOk = false then ⟨1, false, false, false, false, false⟩
  else if e.cfgNbd then ⟨1, true, false, false, false, false⟩
  else if e.cfgErase then
    if e.eraseOk then ⟨0, false, false, false, false, false⟩
    else ⟨1, false, false, false, false, false⟩
  else if e.cfgReset then
    if e.resetOk then ⟨0, false, false, false, false, false⟩
    else ⟨1, false, false, false, false, false⟩
  else if e.createStoreOk = false then ⟨1, true, false, false, false, false⟩
  else if e.fuseOpsOk = false then ⟨1, false, true, true, false, false⟩
  else if e.fuseMainRet ≠ 0 then ⟨1, true, false, false, true, false⟩
  else ⟨0, false, false, false, false, false⟩

/-- Environment reaching the fuse_ops_create failure branch. -/
def envFuseOpsFail : MainEnv :=
  ⟨[], 0, true, false, false, true, false, true, true, true, false, 0⟩

/-- Counterexample for C5 as stated: when fuse_ops_create returns NULL, main
returns the nonzero status 1 and invokes the store's shutdown and destroy
hooks, but logs no message at all (src/main.c lines 137-141 emit nothing),
contradicting the claim that main logs a message for every startup failure. -/
theorem fuse_ops_failure_no_log :
    (main_run envFuseOpsFail).exitCode = 1 ∧
    (main_run envFuseOpsFail).shutdownCalled = true ∧
    (main_run envFuseOpsFail).destroyCalled = true ∧
    ¬ (main_run envFuseOpsFail).loggedError = true := by
  decide

/-- C5 (amended): on startup failure main returns a nonzero exit status; in
the s3backer_create_store and fuse_main failure cases it also logs a message;
in the fuse_ops_create failure case it invokes the store's shutdown and
destroy operations before returning, without logging. -/
theorem startup_failure_exit_codes (e : MainEnv)
    (hscan : nbd_flag_scan e.args = false) (hcfg : e.getConfigOk = true)
    (hnbd : e.cfgNbd = false) (herase : e.cfgErase = false)
    (hreset : e.cfgReset = false) :
    (e.createStoreOk = false → main_run e = ⟨1, true, false, false, false, false⟩) ∧
    (e.createStoreOk = true → e.fuseOpsOk = false →
        main_run e = ⟨1, false, true, true, false, false⟩) ∧
    (e.createStoreOk = true → e.fuseOpsOk = true → e.fuseMainRet ≠ 0 →
        main_run e = ⟨1, true, false, false, true, false⟩) := by
  refine ⟨?_, ?_, ?_⟩
  · intro hcs
    simp [main_run, hscan, hcfg, hnbd, herase, hreset, hcs]
  · intro hcs hfo
    simp [main_run, hscan, hcfg, hnbd, herase, hreset, hcs, hfo]
  · intro hcs hfo hfm
    simp [main_run, hscan, hcfg, hnbd, herase, hreset, hcs, hfo, hfm]

/-- Witness for the amended C5 at concrete environments covering all three
failure branches. -/
theorem startup_failure_exit_codes_witness :
    main_run ⟨[], 0, true, false, false, true, false, true, false, true, true, 0⟩ =
      ⟨1, true, false, false, false, false⟩ ∧
    main_run envFuseOpsFail = ⟨1, false, true, true, false, false⟩ ∧
    main_run ⟨[], 0, true, false, false, true, false, true, true, true, true, 7⟩ =
      ⟨1, true, false, false, true, false⟩ :=
  ⟨(startup_failure_exit_codes ⟨[], 0, true, false, false, true, false, true, false, true, true, 0⟩
      rfl rfl rfl rfl rfl).1 rfl,
   (startup_failure_exit_codes envFuseOpsFail rfl rfl rfl rfl rfl).2.1 rfl rfl,
   (startup_failure_exit_codes ⟨[], 0, true, false, false, true, false, true, true, true, true, 7⟩
      rfl rfl rfl rfl rfl).2.2 rfl rfl (by decide)⟩

/-! Section 4: child-process supervision of trampoline_to_nbd
(src/main.c lines 325-416, 426-523). -/

/-- Observable events of trampoline_to_nbd: installing a signal handler,
the wait for the daemonizing nbdkit parent, one round of the supervisor wait
loop, spawning a child (recording the list length seen by the assertion in
start_child_process), and sending SIGTERM to a child. -/
inductive TrampEv where
  | register (sig : Nat)
  | earlyWait
  | loopWait
  | startChild (pid : Int) (preCount : Nat)
  | kill (pid : Int)
deriving DecidableEq

def SIGHUP : Nat := 1
def SIGINT : Nat := 2
def SIGQUIT : Nat := 3
def SIGTERM : Nat := 15

/-- The signals the trampoline forwards (src/main.c line 59). -/
def forward_signals : List Nat := [SIGHUP, SIGINT, SIGQUIT, SIGTERM]

/-- Model of start_child_process (src/main.c lines 426-451): the forked pid is
appended to the recorded child list; the emitted event carries the list
length checked by the assertion num_child_pids < MAX_CHILD_PROCESSES. -/
def start_child_process (children : List Int) (pid : Int) : List Int × TrampEv :=
  (children ++ [pid], TrampEv.startChild pid children.length)

/-- Model of kill_remaining_children (src/main.c lines 510-523): send SIGTERM
to every recorded child other than the excluded pid. -/
def kill_remaining_children (children : List Int) (excl : Int) : List TrampEv :=
  (children.filter (fun p => p != excl)).map TrampEv.kill

/-- Model of the supervisor wait loop (src/main.c lines 386-392), driven by an
oracle of wait outcomes: an exit of the nbd-client pid is ignored (the pid is
replaced by -2 so it cannot match again) and the loop repeats; any other
result, including the -1 of a signal interruption, terminates the loop.
Returns the breaking value, the child list at that point, the loop's wait
events and the unconsumed outcomes; none when the oracle runs out first.
Child pids are positive, so the 0 returned on an empty child list never
matches the client pid. -/
def super_loop (sleep_if_none : Bool) :
    List WaitOutcome → List Int → Int →
    Option (Int × List Int × List TrampEv × List WaitOutcome)
  | [], children, _ =>
      if children.isEmpty && !sleep_if_none then
        some (0, children, [TrampEv.loopWait], [])
      else none
  | o :: rest, children, clientPid =>
      if children.isEmpty && !sleep_if_none then
        some (0, children, [TrampEv.loopWait], o :: rest)
      else
        let r := wait_for_child_to_exit children sleep_if_none o
        if r.1 = clientPid then
          match super_loop sleep_if_none rest r.2 (-2) with
          | none => none
          | some (ep, c, tr, rem) => some (ep, c, TrampEv.loopWait :: tr, rem)
        else some (r.1, r.2, [TrampEv.loopWait], rest)

/-- Model of the final drain loop (src/main.c lines 406-409): repeat
wait_for_child_to_exit(0) until it returns 0, that is until no recorded
children remain. -/
def drain_loop : List WaitOutcome → List Int → Option (List Int)
  | _, [] => some []
  | [], _ :: _ => none
  | o :: rest, c :: cs =>
      drain_loop rest (wait_for_child_to_exit (c :: cs) false o).2

/-- Inputs of the supervision phase of trampoline_to_nbd: the foreground
flag, the pids returned by the three fork_off calls, and the oracle of wait
outcomes. -/
structure TrampEnv where
  foreground : Bool
  serverPid : Int
  clientPid : Int
  cleanupPid : Int
  outs : List WaitOutcome

/-- First phase of the supervision: start nbdkit and, when not running in the
foreground, wait for the forking nbdkit parent to exit; a different outcome
makes the process err-exit during setup (modelled as none). -/
def early_step (env : TrampEnv) :
    Option (List Int × List TrampEv × List WaitOutcome) :=
  let s1 := start_child_process [] env.serverPid
  if env.foreground then some (s1.1, [s1.2], env.outs)
  else
    match env.outs with
    | [] => none
    | o :: rest =>
      let r := wait_for_child_to_exit s1.1 false o
      if r.1 = env.serverPid then some (r.2, [s1.2, TrampEv.earlyWait], rest)
      else none

/-- Model of the supervision phase of trampoline_to_nbd (src/main.c lines
325-416): start nbdkit (and reap its forking parent when daemonizing), start
nbd-client, install the four signal handlers, run the supervisor loop, start
the cleanup "nbd-client -d", SIGTERM every other recorded child, and drain.
Returns the event trace, the child list at loop exit, and the final child
list. -/
def trampoline_to_nbd (env : TrampEnv) :
    Option (List TrampEv × List Int × List Int) :=
  match early_step env with
  | none => none
  | some (c2, tr2, outs2) =>
    let s3 := start_child_process c2 env.clientPid
    match super_loop (!env.foreground) outs2 s3.1 env.clientPid with
    | none => none
    | some (_, c4, loopTr, outs3) =>
      let s5 := start_child_process c4 env.cleanupPid
      let kills := kill_remaining_children s5.1 env.cleanupPid
      match drain_loop outs3 s5.1 with
      | none => none
      | some _ =>
        some (tr2 ++ [s3.2] ++ forward_signals.map TrampEv.register ++ loopTr
            ++ [s5.2] ++ kills, c4, [])

theorem wait_for_child_length (children : List Int) (s : Bool) (o : WaitOutcome) :
    (wait_for_child_to_exit children s o).2.length ≤ children.length := by
  unfold wait_for_child_to_exit
  by_cases hc : children.isEmpty
  · simp [hc]
    cases s <;> simp
  · cases o with
    | interrupted => simp [hc]
    | exited p => simp [hc, record_child_exited_length_le]

theorem early_step_spec (env : TrampEnv) (c2 : List Int) (tr2 : List TrampEv)
    (outs2 : List WaitOutcome) (h : early_step env = some (c2, tr2, outs2)) :
    c2.length ≤ 1 ∧
    (∀ p n, TrampEv.startChild p n ∈ tr2 → n = 0) ∧
    TrampEv.loopWait ∉ tr2 := by
  unfold early_step start_child_process at h
  simp only [List.nil_append, List.length_nil] at h
  cases hf : env.foreground with
  | true =>
    simp only [hf, if_true, Option.some.injEq, Prod.mk.injEq] at h
    obtain ⟨h1, h2, h3⟩ := h
    subst h1; subst h2
    refine ⟨by simp, ?_, by simp⟩
    intro p n hn
    rcases List.mem_singleton.mp hn with hn'
    injection hn' with hp hn2
  | false =>
    simp only [hf, Bool.false_eq_true, if_false] at h
    cases ho : env.outs with
    | nil => rw [ho] at h; cases h
    | cons o rest =>
      rw [ho] at h
      by_cases hr : (wait_for_child_to_exit [env.serverPid] false o).1 = env.serverPid
      · simp only [hr, if_true, Option.some.injEq, Prod.mk.injEq] at h
        obtain ⟨h1, h2, h3⟩ := h
        subst h1; subst h2
        refine ⟨?_, ?_, by simp⟩
        · calc (wait_for_child_to_exit [env.serverPid] false o).2.length
              ≤ ([env.serverPid] : List Int).length := wait_for_child_length _ _ _
            _ = 1 := by simp
        · intro p n hn
          rcases List.mem_cons.mp hn with hn' | hn'
          · injection hn' with hp hn2
          · rcases List.mem_singleton.mp hn' with hn''
            cases hn''
      · simp only [hr, if_false] at h
        cases h

theorem super_loop_spec (sleep_if_none : Bool) (outs : List WaitOutcome)
    (children : List Int) (cp ep : Int) (c : List Int) (tr : List TrampEv)
    (rem : List WaitOutcome)
    (h : super_loop sleep_if_none outs children cp = some (ep, c, tr, rem)) :
    (∀ ev ∈ tr, ev = TrampEv.loopWait) ∧ c.length ≤ children.length := by
  induction outs generalizing children cp ep c tr rem with
  | nil =>
    unfold super_loop at h
    by_cases hc : children.isEmpty && !sleep_if_none
    · simp only [hc, if_true, Option.some.injEq, Prod.mk.injEq] at h
      obtain ⟨h1, h2, h3, h4⟩ := h
      subst h2; subst h3
      exact ⟨by simp, le_refl _⟩
    · simp [hc] at h
  | cons o rest ih =>
    unfold super_loop at h
    by_cases hc : children.isEmpty && !sleep_if_none
    · simp only [hc, if_true, Option.some.injEq, Prod.mk.injEq] at h
      obtain ⟨h1, h2, h3, h4⟩ := h
      subst h2; subst h3
      exact ⟨by simp, le_refl _⟩
    · simp only [hc, if_false, Bool.false_eq_true] at h
      by_cases hr : (wait_for_child_to_exit children sleep_if_none o).1 = cp
      · simp only [hr, if_true] at h
        cases hrec : super_loop sleep_if_none rest
            (wait_for_child_to_exit children sleep_if_none o).2 (-2) with
        | none => rw [hrec] at h; cases h
        | some v =>
          obtain ⟨ep', c', tr', rem'⟩ := v
          rw [hrec] at h
          simp only [Option.some.injEq, Prod.mk.injEq] at h
          obtain ⟨h1, h2, h3, h4⟩ := h
          subst h2; subst h3
          obtain ⟨htr', hlen'⟩ := ih _ _ _ _ _ _ hrec
          refine ⟨?_, le_trans hlen' (wait_for_child_length _ _ _)⟩
          intro ev hev
          rcases List.mem_cons.mp hev with hev | hev
          · exact hev
          · exact htr' ev hev
      · simp only [hr, if_false, Option.some.injEq, Prod.mk.injEq] at h
        obtain ⟨h1, h2, h3, h4⟩ := h
        subst h2; subst h3
        exact ⟨by simp, wait_for_child_length _ _ _⟩

/-- C7: on every completed run of the trampoline, the child count seen at each
start_child_process call is at most 2, so at most three children are ever
recorded simultaneously and the assertion num_child_pids <
MAX_CHILD_PROCESSES (10) guarding the child_pids array holds at every call. -/
theorem trampoline_child_bound (env : TrampEnv) (tr : List TrampEv)
    (cb fc : List Int) (h : trampoline_to_nbd env = some (tr, cb, fc)) :
    ∀ p n, TrampEv.startChild p n ∈ tr → n + 1 ≤ 3 ∧ n < 10 := by
  unfold trampoline_to_nbd at h
  cases he : early_step env with
  | none => rw [he] at h; cases h
  | some v2 =>
    obtain ⟨c2, tr2, outs2⟩ := v2
    rw [he] at h
    obtain ⟨hc2, htr2, -⟩ := early_step_spec env c2 tr2 outs2 he
    simp only at h
    cases hsl : super_loop (!env.foreground) outs2
        (start_child_process c2 env.clientPid).1 env.clientPid with
    | none => rw [hsl] at h; cases h
    | some v4 =>
      obtain ⟨ep, c4, loopTr, outs3⟩ := v4
      rw [hsl] at h
      obtain ⟨hloopTr, hc4⟩ := super_loop_spec _ _ _ _ _ _ _ _ hsl
      have hc4' : c4.length ≤ 2 := by
        have : (start_child_process c2 env.clientPid).1.length ≤ 2 := by
          simp [start_child_process]
          omega
        omega
      simp only at h
      cases hd : drain_loop outs3 (start_child_process c4 env.cleanupPid).1 with
      | none => rw [hd] at h; cases h
      | some _ =>
        rw [hd] at h
        simp only [Option.some.injEq, Prod.mk.injEq] at h
        obtain ⟨h1, h2, h3⟩ := h
        subst h1
        intro p n hn
        simp only [List.mem_append, List.mem_map, List.mem_singleton,
          start_child_process, kill_remaining_children] at hn
        rcases hn with ((((hn | hn) | hn) | hn) | hn) | hn
        · have := htr2 p n hn
          omega
        · injection hn with hp hn2
          omega
        · obtain ⟨s, -, hs⟩ := hn
          cases hs
        · have := hloopTr _ hn
          cases this
        · injection hn with hp hn2
          omega
        · obtain ⟨q, -, hq⟩ := hn
          cases hq

/-- C6: on every completed trampoline run, handlers for SIGHUP, SIGINT,
SIGQUIT and SIGTERM are all installed before the first supervisor-loop wait;
the supervisor loop terminates as soon as a wait is interrupted by a signal
or reaps a child other than nbd-client; and every child recorded at loop
exit other than the cleanup nbd-client is sent SIGTERM. -/
theorem trampoline_signals_and_cleanup (env : TrampEnv) (tr : List TrampEv)
    (cb fc : List Int) (h : trampoline_to_nbd env = some (tr, cb, fc)) :
    (∃ front back, tr = front ++ forward_signals.map TrampEv.register ++ back ∧
        TrampEv.loopWait ∉ front) ∧
    (∀ p, p ∈ cb → p ≠ env.cleanupPid → TrampEv.kill p ∈ tr) ∧
    (∀ (ch : List Int) (cp : Int) (o : WaitOutcome) (rest : List WaitOutcome),
        ch ≠ [] →
        (wait_for_child_to_exit ch (!env.foreground) o).1 ≠ cp →
        super_loop (!env.foreground) (o :: rest) ch cp =
          some ((wait_for_child_to_exit ch (!env.foreground) o).1,
            (wait_for_child_to_exit ch (!env.foreground) o).2,
            [TrampEv.loopWait], rest)) := by
  refine ⟨?_, ?_, ?_⟩
  · unfold trampoline_to_nbd at h
    cases he : early_step env with
    | none => rw [he] at h; cases h
    | some v2 =>
      obtain ⟨c2, tr2, outs2⟩ := v2
      rw [he] at h
      obtain ⟨-, -, hnolw⟩ := early_step_spec env c2 tr2 outs2 he
      simp only at h
      cases hsl : super_loop (!env.foreground) outs2
          (start_child_process c2 env.clientPid).1 env.clientPid with
      | none => rw [hsl] at h; cases h
      | some v4 =>
        obtain ⟨ep, c4, loopTr, outs3⟩ := v4
        rw [hsl] at h
        simp only at h
        cases hd : drain_loop outs3 (start_child_process c4 env.cleanupPid).1 with
        | none => rw [hd] at h; cases h
        | some dr =>
          rw [hd] at h
          simp only [Option.some.injEq, Prod.mk.injEq] at h
          obtain ⟨h1, h2, h3⟩ := h
          subst h1
          refine ⟨tr2 ++ [(start_child_process c2 env.clientPid).2],
            loopTr ++ [(start_child_process c4 env.cleanupPid).2] ++
              kill_remaining_children (start_child_process c4 env.cleanupPid).1
                env.cleanupPid, by simp, ?_⟩
          simp only [List.mem_append, List.mem_singleton, start_child_process]
          rintro (hlw | hlw)
          · exact hnolw hlw
          · cases hlw
  · unfold trampoline_to_nbd at h
    cases he : early_step env with
    | none => rw [he] at h; cases h
    | some v2 =>
      obtain ⟨c2, tr2, outs2⟩ := v2
      rw [he] at h
      simp only at h
      cases hsl : super_loop (!env.foreground) outs2
          (start_child_process c2 env.clientPid).1 env.clientPid with
      | none => rw [hsl] at h; cases h
      | some v4 =>
        obtain ⟨ep, c4, loopTr, outs3⟩ := v4
        rw [hsl] at h
        simp only at h
        cases hd : drain_loop outs3 (start_child_process c4 env.cleanupPid).1 with
        | none => rw [hd] at h; cases h
        | some dr =>
          rw [hd] at h
          simp only [Option.some.injEq, Prod.mk.injEq] at h
          obtain ⟨h1, h2, h3⟩ := h
          subst h1; subst h2
          intro p hp hne
          have hk : TrampEv.kill p ∈
              kill_remaining_children (start_child_process c4 env.cleanupPid).1
                env.cleanupPid := by
            unfold kill_remaining_children start_child_process
            refine List.mem_map.mpr ⟨p, ?_, rfl⟩
            refine List.mem_filter.mpr ⟨List.mem_append.mpr (Or.inl hp), ?_⟩
            simpa using hne
          exact List.mem_append.mpr (Or.inr hk)
  · intro ch cp o rest hne hr
    cases ch with
    | nil => exact absurd rfl hne
    | cons x xs =>
      simp only [super_loop, List.isEmpty_cons, Bool.false_and, Bool.false_eq_true,
        if_false]
      simp [hr]

/-- Concrete supervision run in the foreground: one interrupted supervisor
wait, then all three children reaped in the final drain. -/
def envDemo : TrampEnv :=
  ⟨true, 100, 101, 102,
    [WaitOutcome.interrupted, WaitOutcome.exited 100, WaitOutcome.exited 101,
     WaitOutcome.exited 102]⟩

/-- The event trace produced by envDemo. -/
def trDemo : List TrampEv :=
  [TrampEv.startChild 100 0, TrampEv.startChild 101 1,
   TrampEv.register SIGHUP, TrampEv.register SIGINT, TrampEv.register SIGQUIT,
   TrampEv.register SIGTERM, TrampEv.loopWait, TrampEv.startChild 102 2,
   TrampEv.kill 100, TrampEv.kill 101]

/-- Witness for C6: in the concrete run, the nbdkit child 100 recorded at
loop exit receives SIGTERM. -/
theorem trampoline_signals_and_cleanup_witness :
    TrampEv.kill 100 ∈ trDemo :=
  (trampoline_signals_and_cleanup envDemo trDemo [100, 101] [] (by decide)).2.1
    100 (by decide) (by decide)

/-- Witness for C7: the concrete run completes and the cleanup spawn sees
child count 2, within both bounds. -/
theorem trampoline_child_bound_witness :
    trampoline_to_nbd envDemo = some (trDemo, [100, 101], []) ∧
    2 + 1 ≤ 3 ∧ 2 < 10 :=
  ⟨by decide,
   trampoline_child_bound envDemo trDemo [100, 101] [] (by decide) 102 2 (by decide)⟩

/-! Section 5: the block cache (spec section 4.1).  The four-layer storage
pipeline is not present under src/, so it is modelled from the spec. -/

/-- A block payload: a byte buffer. -/
abbrev Payload := List Nat

/-- Modelled from the spec: the block-cache entry states of spec section 4.1
(the block cache source is missing from src/): CLEAN, DIRTY, WRITING,
WRITING2, READING, READING2. -/
inductive EntrySt where
  | clean
  | dirty
  | writing
  | writing2
  | reading
  | reading2
deriving DecidableEq

/-- Modelled from the spec: a block-cache entry (spec sections 3 and 4.1,
source missing from src/): its state, the currently visible data, and, while
a write-back is in flight, the payload of the PUT in progress (in WRITING2
the in-flight payload is the superseded one). -/
structure CacheEntry where
  st : EntrySt
  data : Payload
  inflight : Payload

/-- Modelled from the spec: the block cache together with the collapsed
layers below it; downstream i is the content the lower layers hold for block
i (an absent object reads as zeros). -/
structure CacheSys where
  cache : Nat → Option CacheEntry
  downstream : Nat → Payload

/-- Replace the cache entry of block i. -/
def setEntry (s : CacheSys) (i : Nat) (e : Option CacheEntry) : CacheSys :=
  { s with cache := fun j => if j = i then e else s.cache j }

/-- Replace the downstream content of block i. -/
def setDown (s : CacheSys) (i : Nat) (d : Payload) : CacheSys :=
  { s with downstream := fun j => if j = i then d else s.downstream j }

/-- Modelled from the spec: the entry produced by write(i, x) (spec 4.1 write
semantics and entry state machine): a miss or CLEAN/DIRTY entry becomes
DIRTY; an entry with an in-flight write becomes WRITING2 keeping the
in-flight payload; an entry being read becomes READING2 so the fetched bytes
will be discarded. -/
def writeEntry : Option CacheEntry → Payload → CacheEntry
  | none, x => ⟨.dirty, x, x⟩
  | some e, x =>
    match e.st with
    | .clean => ⟨.dirty, x, x⟩
    | .dirty => ⟨.dirty, x, x⟩
    | .writing => ⟨.writing2, x, e.inflight⟩
    | .writing2 => ⟨.writing2, x, e.inflight⟩
    | .reading => ⟨.reading2, x, x⟩
    | .reading2 => ⟨.reading2, x, x⟩

/-- Modelled from the spec: write(i, x) on the block cache (spec 4.1, write
is acknowledged once the entry is updated; propagation is left to the worker
pool). -/
def cacheWrite (s : CacheSys) (i : Nat) (x : Payload) : CacheSys :=
  setEntry s i (some (writeEntry (s.cache i) x))

/-- Modelled from the spec: the bytes read(i) returns (spec 4.1 read
semantics): entries in CLEAN/DIRTY/WRITING/WRITING2 answer from the entry;
READING waits for the fetch, which yields the downstream content; READING2
waits and then answers from the entry (the fetch is discarded); a miss
fetches downstream. -/
def cacheRead (s : CacheSys) (i : Nat) : Payload :=
  match s.cache i with
  | none => s.downstream i
  | some e =>
    match e.st with
    | .reading => s.downstream i
    | _ => e.data

/-- Modelled from the spec: the background transitions of the block cache
(spec 4.1): a worker picks up a DIRTY entry, completes a write-back (from
WRITING the entry becomes CLEAN, from WRITING2 it returns to DIRTY with the
newer data, the in-flight payload reaching downstream), starts or completes
a read, or evicts a CLEAN entry. -/
inductive CacheStep : CacheSys → CacheSys → Prop where
  | wbStart (s : CacheSys) (i : Nat) (e : CacheEntry) :
      s.cache i = some e → e.st = .dirty →
      CacheStep s (setEntry s i (some ⟨.writing, e.data, e.data⟩))
  | wbDone (s : CacheSys) (i : Nat) (e : CacheEntry) :
      s.cache i = some e → e.st = .writing →
      CacheStep s (setDown (setEntry s i (some ⟨.clean, e.inflight, e.inflight⟩)) i e.inflight)
  | wbDone2 (s : CacheSys) (i : Nat) (e : CacheEntry) :
      s.cache i = some e → e.st = .writing2 →
      CacheStep s (setDown (setEntry s i (some ⟨.dirty, e.data, e.data⟩)) i e.inflight)
  | rdStart (s : CacheSys) (i : Nat) :
      s.cache i = none →
      CacheStep s (setEntry s i (some ⟨.reading, s.downstream i, s.downstream i⟩))
  | rdDone (s : CacheSys) (i : Nat) (e : CacheEntry) :
      s.cache i = some e → e.st = .reading →
      CacheStep s (setEntry s i (some ⟨.clean, s.downstream i, s.downstream i⟩))
  | rdDone2 (s : CacheSys) (i : Nat) (e : CacheEntry) :
      s.cache i = some e → e.st = .reading2 →
      CacheStep s (setEntry s i (some ⟨.dirty, e.data, e.data⟩))
  | evict (s : CacheSys) (i : Nat) (e : CacheEntry) :
      s.cache i = some e → e.st = .clean →
      CacheStep s (setEntry s i none)

/-- State invariant of the block cache: a CLEAN entry matches downstream and
a WRITING entry's visible data is the in-flight payload. -/
def CacheInv (s : CacheSys) : Prop :=
  ∀ i e, s.cache i = some e →
    (e.st = .clean → e.data = s.downstream i) ∧
    (e.st = .writing → e.data = e.inflight)

theorem cacheStep_read (s s' : CacheSys) (h : CacheStep s s') (hinv : CacheInv s) :
    ∀ j, cacheRead s' j = cacheRead s j := by
  intro j
  cases h with
  | wbStart i e he hst =>
    by_cases hj : j = i
    · subst hj
      simp [cacheRead, setEntry, he, hst]
    · simp [cacheRead, setEntry, hj]
  | wbDone i e he hst =>
    by_cases hj : j = i
    · subst hj
      have hdi : e.data = e.inflight := (hinv j e he).2 hst
      simp [cacheRead, setEntry, setDown, he, hst, hdi]
    · simp [cacheRead, setEntry, setDown, hj]
  | wbDone2 i e he hst =>
    by_cases hj : j = i
    · subst hj
      simp [cacheRead, setEntry, setDown, he, hst]
    · simp [cacheRead, setEntry, setDown, hj]
  | rdStart i he =>
    by_cases hj : j = i
    · subst hj
      simp [cacheRead, setEntry, he]
    · simp [cacheRead, setEntry, hj]
  | rdDone i e he hst =>
    by_cases hj : j = i
    · subst hj
      simp [cacheRead, setEntry, he, hst]
    · simp [cacheRead, setEntry, hj]
  | rdDone2 i e he hst =>
    by_cases hj : j = i
    · subst hj
      simp [cacheRead, setEntry, he, hst]
    · simp [cacheRead, setEntry, hj]
  | evict i e he hst =>
    by_cases hj : j = i
    · subst hj
      have hdi : e.data = s.downstream j := (hinv j e he).1 hst
      simp [cacheRead, setEntry, he, hst, hdi]
    · simp [cacheRead, setEntry, hj]

theorem cacheStep_inv (s s' : CacheSys) (h : CacheStep s s') (hinv : CacheInv s) :
    CacheInv s' := by
  cases h with
  | wbStart i e he hst =>
    intro j f hf
    by_cases hj : j = i
    · subst hj
      simp [setEntry] at hf
      subst hf
      exact ⟨fun hc => (nomatch hc), fun _ => rfl⟩
    · simp only [setEntry, if_neg hj] at hf
      exact hinv j f hf
  | wbDone i e he hst =>
    intro j f hf
    by_cases hj : j = i
    · subst hj
      simp [setDown, setEntry] at hf
      subst hf
      refine ⟨fun _ => ?_, fun hw => nomatch hw⟩
      simp [setDown, setEntry]
    · simp only [setDown, setEntry, if_neg hj] at hf
      refine ⟨fun hc => ?_, fun hw => (hinv j f hf).2 hw⟩
      have := (hinv j f hf).1 hc
      simpa [setDown, setEntry, hj] using this
  | wbDone2 i e he hst =>
    intro j f hf
    by_cases hj : j = i
    · subst hj
      simp [setDown, setEntry] at hf
      subst hf
      exact ⟨fun hc => (nomatch hc), fun hw => nomatch hw⟩
    · simp only [setDown, setEntry, if_neg hj] at hf
      refine ⟨fun hc => ?_, fun hw => (hinv j f hf).2 hw⟩
      have := (hinv j f hf).1 hc
      simpa [setDown, setEntry, hj] using this
  | rdStart i he =>
    intro j f hf
    by_cases hj : j = i
    · subst hj
      simp [setEntry] at hf
      subst hf
      exact ⟨fun hc => (nomatch hc), fun hw => nomatch hw⟩
    · simp only [setEntry, if_neg hj] at hf
      exact hinv j f hf
  | rdDone i e he hst =>
    intro j f hf
    by_cases hj : j = i
    · subst hj
      simp [setEntry] at hf
      subst hf
      exact ⟨fun _ => rfl, fun hw => nomatch hw⟩
    · simp only [setEntry, if_neg hj] at hf
      exact hinv j f hf
  | rdDone2 i e he hst =>
    intro j f hf
    by_cases hj : j = i
    · subst hj
      simp [setEntry] at hf
      subst hf
      exact ⟨fun hc => (nomatch hc), fun hw => nomatch hw⟩
    · simp only [setEntry, if_neg hj] at hf
      exact hinv j f hf
  | evict i e he hst =>
    intro j f hf
    by_cases hj : j = i
    · subst hj
      simp [setEntry] at hf
    · simp only [setEntry, if_neg hj] at hf
      exact hinv j f hf

theorem writeEntry_st (o : Option CacheEntry) (x : Payload) :
    (writeEntry o x).st ≠ EntrySt.clean ∧ (writeEntry o x).st ≠ EntrySt.writing := by
  cases o with
  | none => simp [writeEntry]
  | some e => cases hst : e.st <;> simp [writeEntry, hst]

theorem cacheWrite_inv (s : CacheSys) (i : Nat) (x : Payload) (hinv : CacheInv s) :
    CacheInv (cacheWrite s i x) := by
  intro j f hf
  by_cases hj : j = i
  · subst hj
    simp [cacheWrite, setEntry] at hf
    subst hf
    exact ⟨fun hc => absurd hc (writeEntry_st (s.cache j) x).1,
      fun hw => absurd hw (writeEntry_st (s.cache j) x).2⟩
  · simp [cacheWrite, setEntry, hj] at hf
    exact hinv j f hf

theorem cacheWrite_read (s : CacheSys) (i : Nat) (x : Payload) :
    cacheRead (cacheWrite s i x) i = x := by
  unfold cacheRead cacheWrite setEntry
  simp only [if_pos rfl]
  cases he : s.cache i with
  | none => simp [writeEntry]
  | some e => cases hst : e.st <;> simp [writeEntry, hst]

theorem cacheSteps_read (s s' : CacheSys)
    (h : Relation.ReflTransGen CacheStep s s') (hinv : CacheInv s) :
    CacheInv s' ∧ ∀ j, cacheRead s' j = cacheRead s j := by
  induction h with
  | refl => exact ⟨hinv, fun _ => rfl⟩
  | tail hst hlast ih =>
    obtain ⟨hinvt, hread⟩ := ih
    refine ⟨cacheStep_inv _ _ hlast hinvt, fun j => ?_⟩
    rw [cacheStep_read _ _ hlast hinvt j, hread j]

/-- C1: after write(i, x) is acknowledged, a read(i) returns exactly x no
matter which background transitions (write-back start or completion, read
completion, eviction) have run in between, and in particular before any
downstream propagation: the claim holds in every cache state the entry can
reach. -/
theorem read_after_write (s : CacheSys) (i : Nat) (x : Payload) (s' : CacheSys)
    (hinv : CacheInv s)
    (hsteps : Relation.ReflTransGen CacheStep (cacheWrite s i x) s') :
    cacheRead s' i = x := by
  obtain ⟨-, hread⟩ := cacheSteps_read _ _ hsteps (cacheWrite_inv s i x hinv)
  rw [hread i, cacheWrite_read]

/-- The empty cache over an all-zero store. -/
def sys0 : CacheSys := ⟨fun _ => none, fun _ => []⟩

/-- Witness for C1: a concrete write followed immediately by a read. -/
theorem read_after_write_witness :
    cacheRead (cacheWrite sys0 0 [1, 2]) 0 = [1, 2] :=
  read_after_write sys0 0 [1, 2] (cacheWrite sys0 0 [1, 2])
    (fun _ _ h => nomatch h) Relation.ReflTransGen.refl

/-! Section 6: the zero cache (spec section 4.2, source missing from src/). -/

/-- The all-zero payload of a block of B bytes. -/
def zeroBlock (B : Nat) : Payload := List.replicate B 0

/-- Whether a payload consists of zero bytes only. -/
def isZeroPayload (x : Payload) : Bool := x.all (fun b => b == 0)

/-- Modelled from the spec: the zero cache over the object store below it
(spec 4.2, source missing from src/): one bit per block, set exactly when
the block is known all-zero, and the downstream objects keyed by block
index. -/
structure ZeroCache where
  bit : Nat → Bool
  objects : Nat → Option Payload

/-- Modelled from the spec: write at the zero cache (spec 4.2): an all-zero
payload issues a DELETE downstream and sets the bit only on its success; a
non-zero payload clears the bit and delegates the PUT.  downOk says whether
the downstream call succeeds; on failure the bit is untouched and the error
is reported in the first component. -/
def zcWrite (s : ZeroCache) (i : Nat) (x : Payload) (downOk : Bool) :
    Bool × ZeroCache :=
  if isZeroPayload x then
    if downOk then
      (true, ⟨fun j => if j = i then true else s.bit j,
              fun j => if j = i then none else s.objects j⟩)
    else (false, s)
  else
    if downOk then
      (true, ⟨fun j => if j = i then false else s.bit j,
              fun j => if j = i then some x else s.objects j⟩)
    else (false, s)

/-- Modelled from the spec: read at the zero cache (spec 4.2 with the
propagation policy of section 7): a set bit answers all zeros without going
downstream; otherwise the downstream object is returned, an absent object
(NOT_FOUND) reading as all zeros. -/
def zcRead (B : Nat) (s : ZeroCache) (i : Nat) : Payload :=
  if s.bit i then zeroBlock B
  else
    match s.objects i with
    | some d => d
    | none => zeroBlock B

/-- Modelled from the spec: flush at the zero cache: the layer defers
nothing, so flushing only delegates downward and leaves its state
unchanged. -/
def zcFlush (s : ZeroCache) : ZeroCache := s

/-- C2: after a successful write(i, 0) the zero bit for i is set, a read of i
returns all zeros, and the object for i is absent, also after flush; the
DELETE precedes the bit update, so a failed DELETE leaves the state
unchanged; a non-zero write clears the bit and delegates the payload
downstream. -/
theorem zero_write_read_flush (B : Nat) (s : ZeroCache) (i : Nat) (x : Payload) :
    (isZeroPayload x = true →
      (zcWrite s i x true).1 = true ∧
      zcRead B (zcWrite s i x true).2 i = zeroBlock B ∧
      (zcFlush (zcWrite s i x true).2).objects i = none ∧
      ((zcWrite s i x true).2).bit i = true ∧
      zcWrite s i x false = (false, s)) ∧
    (isZeroPayload x = false →
      ((zcWrite s i x true).2).bit i = false ∧
      ((zcWrite s i x true).2).objects i = some x) := by
  constructor
  · intro h
    simp [zcWrite, zcRead, zcFlush, h]
  · intro h
    simp [zcWrite, h]

/-- The empty zero cache over an empty bucket. -/
def zc0 : ZeroCache := ⟨fun _ => false, fun _ => none⟩

/-- Witness for C2: a concrete zero write and a concrete non-zero write. -/
theorem zero_write_read_flush_witness :
    zcRead 2 (zcWrite zc0 0 [0, 0] true).2 0 = zeroBlock 2 ∧
    ((zcWrite zc0 5 [1, 0] true).2).bit 5 = false :=
  ⟨((zero_write_read_flush 2 zc0 0 [0, 0]).1 (by decide)).2.1,
   ((zero_write_read_flush 2 zc0 5 [1, 0]).2 (by decide)).1⟩

/-! Section 7: error kinds and their propagation (spec sections 4.4 and 7,
source missing from src/). -/

/-- Modelled from the spec: the error kinds of spec section 7 a read can
surface. -/
inductive ErrKind where
  | notFound
  | integrity
  | auth
  | transientE
  | ioError
deriving DecidableEq

/-- Modelled from the spec: one network response to a GET (spec 4.4 read
pipeline): success, 404, a retriable transient failure, an authentication
failure, or a corrupt object failing the integrity check. -/
inductive NetResp where
  | ok (d : Payload)
  | missing
  | transientFail
  | authFail
  | corrupt
deriving DecidableEq

/-- Modelled from the spec: the HTTP I/O read (spec 4.4, source missing from
src/): transient failures are retried internally against the remaining
responses; exhausting the retry bound yields the non-retriable IO error;
other responses map to their error kinds. -/
def http_read : List NetResp → Except ErrKind Payload
  | [] => .error .ioError
  | r :: rest =>
    match r with
    | .ok d => .ok d
    | .missing => .error .notFound
    | .transientFail => http_read rest
    | .authFail => .error .auth
    | .corrupt => .error .integrity

/-- Modelled from the spec: the EC-protect read (spec 4.3, source missing
from src/): within the consistency window the locally remembered copy is
returned; otherwise the downstream result passes through unchanged. -/
def ec_read (loc : Option Payload) (down : Except ErrKind Payload) :
    Except ErrKind Payload :=
  match loc with
  | some d => .ok d
  | none => down

/-- Modelled from the spec: the zero-cache read over a downstream result
(spec 4.2 and section 7): a set bit short-circuits to zeros; a downstream
NOT_FOUND reads as zeros; everything else passes through. -/
def zc_read_from (B : Nat) (bit : Bool) (down : Except ErrKind Payload) :
    Except ErrKind Payload :=
  if bit then .ok (zeroBlock B)
  else
    match down with
    | .error .notFound => .ok (zeroBlock B)
    | r => r

/-- Modelled from the spec: the block-cache read over a downstream result
(spec 4.1): a cached entry answers directly; a miss returns the downstream
result. -/
def bc_read_from (cached : Option Payload) (down : Except ErrKind Payload) :
    Except ErrKind Payload :=
  match cached with
  | some d => .ok d
  | none => down

/-- Modelled from the spec: a full-stack read, layered as in spec section 2:
block cache over zero cache over EC protect over HTTP I/O. -/
def stack_read (B : Nat) (cached loc : Option Payload) (bit : Bool)
    (rs : List NetResp) : Except ErrKind Payload :=
  bc_read_from cached (zc_read_from B bit (ec_read loc (http_read rs)))

theorem http_read_not_transient (rs : List NetResp) :
    http_read rs ≠ Except.error ErrKind.transientE := by
  induction rs with
  | nil => simp [http_read]
  | cons r rest ih =>
    cases r with
    | ok d => simp [http_read]
    | missing => simp [http_read]
    | transientFail => simpa [http_read] using ih
    | authFail => simp [http_read]
    | corrupt => simp [http_read]

theorem zc_read_from_pass (B : Nat) (bit : Bool) (down : Except ErrKind Payload) :
    zc_read_from B bit down ≠ Except.error ErrKind.notFound ∧
    (down ≠ Except.error ErrKind.transientE →
      zc_read_from B bit down ≠ Except.error ErrKind.transientE) := by
  unfold zc_read_from
  cases bit with
  | true => simp
  | false =>
    cases down with
    | ok d => simp
    | error e => cases e <;> simp

theorem bc_read_from_pass (cached : Option Payload) (down : Except ErrKind Payload)
    (e : ErrKind) (h : down ≠ Except.error e) :
    bc_read_from cached down ≠ Except.error e := by
  unfold bc_read_from
  cases cached with
  | none => exact h
  | some d => simp

/-- C3: TRANSIENT is never returned by the HTTP layer nor by any layer above
it (the retry loop absorbs it, returning IO after exhaustion); NOT_FOUND is
never returned by the zero cache nor by the block cache above it; and every
layer that consulted its downstream propagates an INTEGRITY error unchanged,
so an INTEGRITY error produced below reaches the caller. -/
theorem error_kind_propagation (B : Nat) (cached loc : Option Payload)
    (bit : Bool) (rs : List NetResp) :
    http_read rs ≠ Except.error ErrKind.transientE ∧
    ec_read loc (http_read rs) ≠ Except.error ErrKind.transientE ∧
    zc_read_from B bit (ec_read loc (http_read rs)) ≠ Except.error ErrKind.transientE ∧
    stack_read B cached loc bit rs ≠ Except.error ErrKind.transientE ∧
    zc_read_from B bit (ec_read loc (http_read rs)) ≠ Except.error ErrKind.notFound ∧
    stack_read B cached loc bit rs ≠ Except.error ErrKind.notFound ∧
    ec_read none (Except.error ErrKind.integrity) = Except.error ErrKind.integrity ∧
    zc_read_from B false (Except.error ErrKind.integrity) = Except.error ErrKind.integrity ∧
    bc_read_from none (Except.error ErrKind.integrity) = Except.error ErrKind.integrity ∧
    (http_read rs = Except.error ErrKind.integrity →
      stack_read B none none false rs = Except.error ErrKind.integrity) := by
  have hhttp := http_read_not_transient rs
  have hec : ec_read loc (http_read rs) ≠ Except.error ErrKind.transientE := by
    cases loc with
    | none => exact hhttp
    | some d => simp [ec_read]
  have hzc := zc_read_from_pass B bit (ec_read loc (http_read rs))
  refine ⟨hhttp, hec, hzc.2 hec, bc_read_from_pass _ _ _ (hzc.2 hec), hzc.1,
    bc_read_from_pass _ _ _ hzc.1, rfl, rfl, rfl, ?_⟩
  intro h
  simp [stack_read, bc_read_from, ec_read, zc_read_from, h]

/-- Witness for C3: a corrupt object yields INTEGRITY through the whole
stack. -/
theorem error_kind_propagation_witness :
    stack_read 1 none none false [NetResp.corrupt] = Except.error ErrKind.integrity := by
  obtain ⟨-, -, -, -, -, -, -, -, -, h⟩ :=
    error_kind_propagation 1 none none false [NetResp.corrupt]
  exact h rfl

/-! Section 8: compression, encryption and integrity of the stored object
(spec sections 4.4 and 8.6, source missing from src/). -/

/-- Modelled from the spec: block compression standing in for deflate (spec
4.4, source missing from src/): runs of equal bytes become count-byte pairs
with counts capped at 255. -/
def rleExtend (b : Nat) : List (Nat × Nat) → List (Nat × Nat)
  | [] => [(1, b)]
  | (n, c) :: tl =>
    if c = b ∧ n < 255 then (n + 1, b) :: tl else (1, b) :: (n, c) :: tl

def rleEncode : List Nat → List (Nat × Nat)
  | [] => []
  | b :: rest => rleExtend b (rleEncode rest)

/-- Inverse of rleEncode: expand each count-byte pair. -/
def rleDecode : List (Nat × Nat) → List Nat
  | [] => []
  | (n, b) :: tl => List.replicate n b ++ rleDecode tl

/-- Flatten count-byte pairs into a byte stream. -/
def serializePairs : List (Nat × Nat) → List Nat
  | [] => []
  | (n, b) :: tl => n :: b :: serializePairs tl

/-- Parse a byte stream back into count-byte pairs. -/
def parsePairs : List Nat → Option (List (Nat × Nat))
  | [] => some []
  | _ :: [] => none
  | n :: b :: rest => (parsePairs rest).map (fun tl => (n, b) :: tl)

/-- Modelled from the spec: compression of a block (spec 4.4): payloads
shorter than the threshold are stored raw behind a marker byte, longer ones
run-length encoded behind the other marker. -/
def compressBlock (thr : Nat) (x : List Nat) : List Nat :=
  if x.length < thr then 0 :: x else 1 :: serializePairs (rleEncode x)

/-- Inverse of compressBlock, failing on malformed input. -/
def decompressBlock : List Nat → Option (List Nat)
  | 0 :: raw => some raw
  | 1 :: rest => (parsePairs rest).map rleDecode
  | _ => none

/-- Modelled from the spec: the keystream of the cipher, derived from the
key (spec 4.4 encryption; the CBC cipher is modelled as a byte-wise XOR
stream, which keeps the inversion structure). -/
def keystream (k n : Nat) : List Nat := (List.range n).map (fun j => (k + j) % 256)

/-- Modelled from the spec: encryption and decryption of a byte sequence
(XOR with the keystream; applying it twice restores the input). -/
def cryptBytes (k : Nat) (c : List Nat) : List Nat :=
  List.zipWith Nat.xor c (keystream k c.length)

/-- Modelled from the spec: the authentication tag appended to the
ciphertext (spec 4.4 HMAC; modelled as a byte checksum, which detects every
single-byte change). -/
def macBytes (c : List Nat) : Nat := c.sum % 256

/-- Modelled from the spec: the stored object for a payload (spec 4.4 write
pipeline): compress, then encrypt, then append the tag computed over the
ciphertext. -/
def encodeBlock (thr k : Nat) (x : List Nat) : List Nat :=
  cryptBytes k (compressBlock thr x) ++ [macBytes (cryptBytes k (compressBlock thr x))]

/-- Modelled from the spec: the read pipeline (spec 4.4): verify the tag
over the ciphertext, decrypt, decompress; any mismatch or parse failure is
an INTEGRITY error. -/
def decodeBlock (k : Nat) (s : List Nat) : Except ErrKind (List Nat) :=
  match s.reverse with
  | [] => .error .integrity
  | m :: revc =>
    if macBytes revc.reverse = m then
      match decompressBlock (cryptBytes k revc.reverse) with
      | some x => .ok x
      | none => .error .integrity
    else .error .integrity

theorem rleExtend_ne_nil (b : Nat) (l : List (Nat × Nat)) : rleExtend b l ≠ [] := by
  cases l with
  | nil => simp [rleExtend]
  | cons q tl =>
    obtain ⟨n, c⟩ := q
    simp only [rleExtend]
    by_cases hc : c = b ∧ n < 255
    · rw [if_pos hc]
      simp
    · rw [if_neg hc]
      simp

theorem rleEncode_nil_iff (x : List Nat) : rleEncode x = [] ↔ x = [] := by
  constructor
  · intro h
    cases x with
    | nil => rfl
    | cons b rest =>
      exact absurd h (rleExtend_ne_nil b (rleEncode rest))
  · intro h
    subst h
    rfl

theorem rleDecode_encode (x : List Nat) : rleDecode (rleEncode x) = x := by
  induction x with
  | nil => rfl
  | cons b rest ih =>
    simp only [rleEncode]
    cases he : rleEncode rest with
    | nil =>
      have hrest : rest = [] := (rleEncode_nil_iff rest).mp he
      subst hrest
      simp [rleExtend, rleDecode]
    | cons q tl =>
      obtain ⟨n, c⟩ := q
      rw [he] at ih
      simp only [rleDecode] at ih
      simp only [rleExtend]
      by_cases hc : c = b ∧ n < 255
      · rw [if_pos hc]
        obtain ⟨hcb, -⟩ := hc
        subst hcb
        simp only [rleDecode, List.replicate_succ, List.cons_append]
        rw [ih]
      · rw [if_neg hc]
        simp only [rleDecode, List.replicate_succ, List.replicate_zero,
          List.cons_append, List.nil_append]
        rw [ih]

theorem parsePairs_serialize (l : List (Nat × Nat)) :
    parsePairs (serializePairs l) = some l := by
  induction l with
  | nil => rfl
  | cons q tl ih =>
    obtain ⟨n, b⟩ := q
    simp [serializePairs, parsePairs, ih]

theorem decompress_compress (thr : Nat) (x : List Nat) :
    decompressBlock (compressBlock thr x) = some x := by
  unfold compressBlock
  by_cases h : x.length < thr
  · simp [h, decompressBlock]
  · simp [h, decompressBlock, parsePairs_serialize, rleDecode_encode]

theorem keystream_length (k n : Nat) : (keystream k n).length = n := by
  simp [keystream]

theorem cryptBytes_length (k : Nat) (c : List Nat) :
    (cryptBytes k c).length = c.length := by
  simp [cryptBytes, keystream_length]

theorem zipWith_xor_xor (c s : List Nat) (h : c.length ≤ s.length) :
    List.zipWith Nat.xor (List.zipWith Nat.xor c s) s = c := by
  induction c generalizing s with
  | nil => simp
  | cons a c' ih =>
    cases s with
    | nil => simp at h
    | cons t s' =>
      simp only [List.zipWith_cons_cons]
      rw [ih s' (by simpa using h)]
      congr 1
      exact Nat.xor_cancel_right t a

theorem cryptBytes_involutive (k : Nat) (c : List Nat) :
    cryptBytes k (cryptBytes k c) = c := by
  have h1 : cryptBytes k (cryptBytes k c)
      = List.zipWith Nat.xor (cryptBytes k c) (keystream k c.length) := by
    rw [cryptBytes, cryptBytes_length]
  rw [h1, cryptBytes]
  exact zipWith_xor_xor c (keystream k c.length) (by rw [keystream_length])

theorem decodeBlock_concat (k : Nat) (c : List Nat) (m : Nat) :
    decodeBlock k (c ++ [m]) =
      if macBytes c = m then
        match decompressBlock (cryptBytes k c) with
        | some x => Except.ok x
        | none => Except.error ErrKind.integrity
      else Except.error ErrKind.integrity := by
  unfold decodeBlock
  simp [List.reverse_append]

theorem rleEncode_bound (x : List Nat) (hx : ∀ b ∈ x, b < 256) :
    ∀ q ∈ rleEncode x, q.1 < 256 ∧ q.2 < 256 := by
  induction x with
  | nil =>
    intro q hq
    cases hq
  | cons b rest ih =>
    intro q hq
    have hb : b < 256 := hx b (by simp)
    have hrest : ∀ d ∈ rest, d < 256 := fun d hd => hx d (by simp [hd])
    simp only [rleEncode] at hq
    cases he : rleEncode rest with
    | nil =>
      rw [he] at hq
      simp only [rleExtend] at hq
      rcases List.mem_singleton.mp hq with hq'
      subst hq'
      exact ⟨by omega, hb⟩
    | cons p tl =>
      obtain ⟨n, c⟩ := p
      rw [he] at hq
      simp only [rleExtend] at hq
      by_cases hc : c = b ∧ n < 255
      · rw [if_pos hc] at hq
        rcases List.mem_cons.mp hq with hq' | hq'
        · subst hq'
          exact ⟨by omega, hb⟩
        · exact ih hrest q (he ▸ List.mem_cons_of_mem _ hq')
      · rw [if_neg hc] at hq
        rcases List.mem_cons.mp hq with hq' | hq'
        · subst hq'
          exact ⟨by omega, hb⟩
        · exact ih hrest q (he ▸ hq')

theorem serializePairs_bound (l : List (Nat × Nat))
    (hl : ∀ q ∈ l, q.1 < 256 ∧ q.2 < 256) :
    ∀ b ∈ serializePairs l, b < 256 := by
  induction l with
  | nil =>
    intro b hb
    cases hb
  | cons q tl ih =>
    obtain ⟨n, c⟩ := q
    intro b hb
    have hq := hl (n, c) (by simp)
    simp only [serializePairs] at hb
    rcases List.mem_cons.mp hb with hb' | hb'
    · subst hb'
      exact hq.1
    rcases List.mem_cons.mp hb' with hb'' | hb''
    · subst hb''
      exact hq.2
    · exact ih (fun r hr => hl r (by simp [hr])) b hb''

theorem compressBlock_bound (thr : Nat) (x : List Nat) (hx : ∀ b ∈ x, b < 256) :
    ∀ b ∈ compressBlock thr x, b < 256 := by
  unfold compressBlock
  by_cases h : x.length < thr
  · rw [if_pos h]
    intro b hb
    rcases List.mem_cons.mp hb with hb' | hb'
    · subst hb'
      omega
    · exact hx b hb'
  · rw [if_neg h]
    intro b hb
    rcases List.mem_cons.mp hb with hb' | hb'
    · subst hb'
      omega
    · exact serializePairs_bound _ (rleEncode_bound x hx) b hb'

theorem zipWith_xor_bound (c s : List Nat) (hc : ∀ e ∈ c, e < 256)
    (hs : ∀ e ∈ s, e < 256) : ∀ b ∈ List.zipWith Nat.xor c s, b < 256 := by
  induction c generalizing s with
  | nil =>
    intro b hb
    simp at hb
  | cons a c' ih =>
    cases s with
    | nil =>
      intro b hb
      simp at hb
    | cons t s' =>
      intro b hb
      simp only [List.zipWith_cons_cons] at hb
      rcases List.mem_cons.mp hb with hb' | hb'
      · subst hb'
        have h8 : (256 : Nat) = 2 ^ 8 := by norm_num
        have ha : a < 2 ^ 8 := by rw [← h8]; exact hc a (by simp)
        have ht : t < 2 ^ 8 := by rw [← h8]; exact hs t (by simp)
        rw [h8]
        exact Nat.xor_lt_two_pow ha ht
      · exact ih s' (fun e he => hc e (by simp [he]))
          (fun e he => hs e (by simp [he])) b hb'

theorem keystream_bound (k n : Nat) : ∀ e ∈ keystream k n, e < 256 := by
  intro e he
  simp only [keystream, List.mem_map] at he
  obtain ⟨j, -, hj⟩ := he
  subst hj
  exact Nat.mod_lt _ (by omega)

theorem cryptBytes_bound (k : Nat) (c : List Nat) (hc : ∀ b ∈ c, b < 256) :
    ∀ b ∈ cryptBytes k c, b < 256 :=
  zipWith_xor_bound c (keystream k c.length) hc (keystream_bound k c.length)

theorem sum_set_getD (l : List Nat) (j v : Nat) (hj : j < l.length) :
    (l.set j v).sum + l.getD j 0 = l.sum + v := by
  induction l generalizing j with
  | nil => simp at hj
  | cons a tl ih =>
    cases j with
    | zero =>
      simp only [List.set, List.sum_cons, List.getD_cons_zero]
      omega
    | succ m =>
      have hm : m < tl.length := by simpa using hj
      simp only [List.set, List.sum_cons, List.getD_cons_succ]
      have := ih m hm
      omega

theorem set_append_left (l1 l2 : List Nat) (j v : Nat) (hj : j < l1.length) :
    (l1 ++ l2).set j v = l1.set j v ++ l2 := by
  induction l1 generalizing j with
  | nil => simp at hj
  | cons a tl ih =>
    cases j with
    | zero => simp [List.set]
    | succ m =>
      have hm : m < tl.length := by simpa using hj
      simp [List.set, ih m hm]

theorem set_append_len (l1 : List Nat) (m v : Nat) :
    (l1 ++ [m]).set l1.length v = l1 ++ [v] := by
  induction l1 with
  | nil => simp [List.set]
  | cons a tl ih => simp [List.set, ih]

theorem getD_append_left (l1 l2 : List Nat) (j : Nat) (hj : j < l1.length) :
    (l1 ++ l2).getD j 0 = l1.getD j 0 := by
  induction l1 generalizing j with
  | nil => simp at hj
  | cons a tl ih =>
    cases j with
    | zero => simp
    | succ m =>
      have hm : m < tl.length := by simpa using hj
      simp only [List.cons_append, List.getD_cons_succ]
      exact ih m hm

theorem getD_append_len (l1 : List Nat) (m : Nat) :
    (l1 ++ [m]).getD l1.length 0 = m := by
  induction l1 with
  | nil => rfl
  | cons a tl ih =>
    simp only [List.cons_append, List.length_cons, List.getD_cons_succ]
    exact ih

theorem getD_mem (l : List Nat) (j : Nat) (hj : j < l.length) : l.getD j 0 ∈ l := by
  induction l generalizing j with
  | nil => simp at hj
  | cons a tl ih =>
    cases j with
    | zero => simp
    | succ m =>
      have hm : m < tl.length := by simpa using hj
      simp only [List.getD_cons_succ]
      exact List.mem_cons_of_mem _ (ih m hm)

/-- C4: the stored-object pipeline (compress, encrypt, tag) followed by the
read pipeline (verify tag, decrypt, decompress) restores every payload
bit for bit; and flipping any single byte of the stored object makes the
read fail with an INTEGRITY error. -/
theorem encode_decode_integrity (thr k : Nat) (x : List Nat) :
    decodeBlock k (encodeBlock thr k x) = Except.ok x ∧
    (∀ j v, (∀ b ∈ x, b < 256) → j < (encodeBlock thr k x).length → v < 256 →
      v ≠ (encodeBlock thr k x).getD j 0 →
      decodeBlock k ((encodeBlock thr k x).set j v) =
        Except.error ErrKind.integrity) := by
  constructor
  · rw [encodeBlock, decodeBlock_concat, if_pos rfl, cryptBytes_involutive,
      decompress_compress]
  · intro j v hx hj hv hne
    have hcb : ∀ b ∈ cryptBytes k (compressBlock thr x), b < 256 :=
      cryptBytes_bound k _ (compressBlock_bound thr x hx)
    have hlen : (encodeBlock thr k x).length
        = (cryptBytes k (compressBlock thr x)).length + 1 := by
      simp [encodeBlock]
    by_cases hjc : j < (cryptBytes k (compressBlock thr x)).length
    · have hset : (encodeBlock thr k x).set j v
          = (cryptBytes k (compressBlock thr x)).set j v
            ++ [macBytes (cryptBytes k (compressBlock thr x))] := by
        rw [encodeBlock, set_append_left _ _ _ _ hjc]
      have hgd : (encodeBlock thr k x).getD j 0
          = (cryptBytes k (compressBlock thr x)).getD j 0 := by
        rw [encodeBlock, getD_append_left _ _ _ hjc]
      have hcj : (cryptBytes k (compressBlock thr x)).getD j 0 < 256 :=
        hcb _ (getD_mem _ j hjc)
      have hsum := sum_set_getD (cryptBytes k (compressBlock thr x)) j v hjc
      have hmac : macBytes ((cryptBytes k (compressBlock thr x)).set j v)
          ≠ macBytes (cryptBytes k (compressBlock thr x)) := by
        unfold macBytes
        rw [hgd] at hne
        intro h
        omega
      rw [hset, decodeBlock_concat, if_neg hmac]
    · have hj' : j = (cryptBytes k (compressBlock thr x)).length := by omega
      have hset : (encodeBlock thr k x).set j v
          = cryptBytes k (compressBlock thr x) ++ [v] := by
        rw [encodeBlock, hj', set_append_len]
      have hgd : (encodeBlock thr k x).getD j 0
          = macBytes (cryptBytes k (compressBlock thr x)) := by
        rw [encodeBlock, hj', getD_append_len]
      rw [hgd] at hne
      rw [hset, decodeBlock_concat, if_neg (fun h => hne h.symm)]

/-- Witness for C4: the concrete payload and a flip of its first stored
byte. -/
theorem encode_decode_integrity_witness :
    decodeBlock 5 (encodeBlock 3 5 [1, 2]) = Except.ok [1, 2] ∧
    decodeBlock 5 ((encodeBlock 3 5 [1, 2]).set 0 9) =
      Except.error ErrKind.integrity :=
  ⟨(encode_decode_integrity 3 5 [1, 2]).1,
   (encode_decode_integrity 3 5 [1, 2]).2 0 9 (by decide) (by decide)
     (by decide) (by decide)⟩

end S3B
